import Mathlib

/-!
Shallow embedding of `apple_xml_tools/apple_xml_tools.py`: the Apple-plist
XML wrappers (`AppleXML`, `AppleXMLDict`, `AppleXMLKey`, `AppleXMLString`,
`AppleXMLInteger`, `AppleXMLReal`, `AppleXMLBool`), the diacritics
normalizer, the recursive tree parser `parse_into_primitive_types`, the
schema validator `ParsedPrimitiveTypes.validate`, and the text flattener
`ParsedPrimitiveTypes.get_text`.

Python strings are `String`, optional text (`ElementTree` text, which is
`None` for an empty element) is `Option String`.  Python exceptions are the
`PyErr` sum.  The external `xml.etree.ElementTree` element is modelled as
the `Element` tree; the external `unicodedata` functions are parameters
(`combining`, `nfc`) instantiated with a table that agrees with real
Unicode data on the characters used.
-/

/-- Python `str(x)` for `x : str | None`: `None` prints as `"None"`. -/
def fmtOpt : Option String → String
  | none => "None"
  | some s => s

/-- Model of an `xml.etree.ElementTree.Element` (and hence of the `AppleXML`
wrapper): tag name, text content, ordered children. -/
inductive Element where
  | mk (tag : String) (text : Option String) (children : List Element)

/-- The tag of an element (`AppleXML.get_tag`). -/
def Element.tag : Element → String
  | .mk t _ _ => t

/-- The text of an element (`AppleXML.get_text`). -/
def Element.text : Element → Option String
  | .mk _ t _ => t

/-- The children of an element (iteration over an `AppleXML`). -/
def Element.children : Element → List Element
  | .mk _ _ c => c

/-- The Python exceptions raised by the embedded code. -/
inductive PyErr where
  | typeError (msg : String)
  | valueError (msg : String)
deriving DecidableEq, Repr

/-- Shorthand for a `<key>` element with the given text. -/
def mkKey (t : Option String) : Element := .mk "key" t []

/-- The `ValueError` message raised by `AppleXMLDict.__init__` on a
duplicated key (the f-string formats `key_xml.get_text()`, so `None`
prints as `"None"`). -/
def dupKeyMsg (t : Option String) : String :=
  "Apple original xml tag \"dict\" is broken.: A key \"" ++ fmtOpt t ++ "\" is duplicated."

/-- The loop state of `AppleXMLDict.__init__`: `entries` is `working_dict`
(insertion-ordered, keyed by the raw `key` text, since `AppleXMLKey`
equality and hash are by text), `pending` is `key_xml`
(`none` when `key_xml is None`). -/
structure DictState where
  entries : List (Option String × Element)
  pending : Option (Option String)

/-- `key_xml in working_dict`: membership by key-text equality. -/
def hasKey (entries : List (Option String × Element)) (t : Option String) : Bool :=
  entries.any (fun e => e.1 == t)

/-- One iteration of the `for child_xml in apple_xml` loop of
`AppleXMLDict.__init__`: a `key` child is duplicate-checked and becomes the
pending key; any other child is recorded under the pending key if there is
one and ignored otherwise. -/
def dictStep (s : DictState) (c : Element) : Except PyErr DictState :=
  if c.tag == "key" then
    if hasKey s.entries c.text then
      .error (.valueError (dupKeyMsg c.text))
    else
      .ok { entries := s.entries, pending := some c.text }
  else
    match s.pending with
    | some k => .ok { entries := s.entries ++ [(k, c)], pending := none }
    | none => .ok s

/-- The whole `for` loop of `AppleXMLDict.__init__`, from an arbitrary
state. -/
def dictLoop : DictState → List Element → Except PyErr DictState
  | s, [] => .ok s
  | s, c :: rest =>
    match dictStep s c with
    | .ok s' => dictLoop s' rest
    | .error e => .error e

/-- The alternating `key, value` scan of `AppleXMLDict.__init__` over a
`dict` element's children, returning the recorded entries in insertion
order. -/
def dictScan (cs : List Element) : Except PyErr (List (Option String × Element)) :=
  match dictLoop { entries := [], pending := none } cs with
  | .ok s => .ok s.entries
  | .error e => .error e

/-- `AppleXMLDict.__init__` applied to an element: the tag must be `dict`,
then the children are scanned. -/
def dict_init (e : Element) : Except PyErr (List (Option String × Element)) :=
  if e.tag == "dict" then dictScan e.children
  else .error (.valueError
    ("The argument is not Apple original xml tag \"dict\", but \"" ++ e.tag ++ "\"."))

/-- `AppleXMLKey`: wraps a `key`-tagged element; only its text matters for
equality and hashing. -/
structure AppleXMLKey where
  text : Option String
deriving Repr

/-- `AppleXMLKey.__eq__`: equality compares the wrapped elements' text. -/
def keyEq (a b : AppleXMLKey) : Bool := a.text == b.text

/-- `AppleXMLKey.__hash__` is `hash(self.__apple_xml.get_text())`; Python's
`hash` on `str | None` is a function of that value, modelled as the value
itself. -/
def keyHash (a : AppleXMLKey) : Option String := a.text

/-- `s` is free of XML markup, so that `ET.fromstring` on
`"<key>" ++ s ++ "</key>"` succeeds and returns the text verbatim. -/
def plainXmlText (s : String) : Prop :=
  (¬ s.contains (Char.ofNat 60)) ∧ (¬ s.contains (Char.ofNat 38))

/-- Model of `ET.fromstring("<key>" ++ s ++ "</key>")` for markup-free `s`:
a `key` element whose text is `s`, or `None` when `s` is empty (an empty
XML element has `text is None`). -/
def keyFragmentParse (s : String) : Element :=
  .mk "key" (if s.isEmpty then none else some s) []

/-- `AppleXMLKey.__init__`: requires the wrapped element's tag to be
`key`. -/
def key_init (e : Element) : Except PyErr AppleXMLKey :=
  if e.tag == "key" then .ok { text := e.text }
  else .error (.valueError
    ("The argument is not Apple original xml tag \"key\", but \"" ++ e.tag ++ "\"."))

/-- `AppleXMLKey.fromstr`: wraps the string as `<key>text</key>`, re-parses
it, and constructs the key from the resulting element. -/
def fromstr (s : String) : Except PyErr AppleXMLKey :=
  key_init (keyFragmentParse s)

/-- The key text used by `validate`'s `AppleXMLKey.fromstr(key)` lookups:
the text stored by `fromstr`. -/
def fromstrText (s : String) : Option String :=
  if s.isEmpty then none else some s

/-- The loop of `Diacritics.replace_combining_chars_to_precomposed`:
`buf` is `new_text_as_chars` with its most recent entry first (Python
appends and pops at the end).  A combining character (per the external
`combining` table, `unicodedata.combining`) merges with the most recent
buffer entry through `nfc` (`unicodedata.normalize('NFC', ...)`) when the
buffer is non-empty; every other character is appended unchanged. -/
def diacriticsLoop (combining : Char → Nat) (nfc : String → String) :
    List Char → List String → List String
  | [], buf => buf.reverse
  | c :: rest, buf =>
    if combining c != 0 then
      match buf with
      | [] => diacriticsLoop combining nfc rest [String.singleton c]
      | last :: earlier => diacriticsLoop combining nfc rest (nfc (last.push c) :: earlier)
    else
      diacriticsLoop combining nfc rest (String.singleton c :: buf)

/-- `Diacritics.replace_combining_chars_to_precomposed`, parameterized over
the external Unicode data. -/
def replace_combining_chars_to_precomposed
    (combining : Char → Nat) (nfc : String → String) (text : String) : String :=
  String.join (diacriticsLoop combining nfc text.data [])

/-- Model of `unicodedata.combining`, restricted to the characters used in
this development: U+0301 COMBINING ACUTE ACCENT has canonical combining
class 230; `e`, `x` and U+00E9 are not combining. -/
def uniCombining (c : Char) : Nat :=
  if c = Char.ofNat 0x301 then 230 else 0

/-- Model of `unicodedata.normalize('NFC', s)`, restricted to the strings
it is applied to in this development: `"e" ++ U+0301` composes to U+00E9;
the other inputs used are already NFC-normal. -/
def uniNFC (s : String) : String :=
  if s = "e\u0301" then "\u00E9" else s

/-- `AppleXMLString`: wraps a `string`-tagged element and stores its raw
text. -/
structure AppleXMLString where
  text : Option String
deriving Repr

/-- `AppleXMLString.__eq__`: compares the raw stored text. -/
def strEq (a b : AppleXMLString) : Bool := a.text == b.text

/-- `AppleXMLString.__hash__` is `hash(self.__text)`: a function of the raw
stored text, modelled as the value itself. -/
def strHash (a : AppleXMLString) : Option String := a.text

/-- `AppleXMLString.get_text`: `None` stays `None`, any other text is
diacritics-normalized on every read. -/
def AppleXMLString.get_text (combining : Char → Nat) (nfc : String → String)
    (a : AppleXMLString) : Option String :=
  a.text.map (replace_combining_chars_to_precomposed combining nfc)

/-- The result of `AppleXML.parse_into_primitive_types`: a Python `dict`
keyed by `AppleXMLKey` (represented by the raw key text, which determines
`AppleXMLKey` equality and hash), a Python `list`, or one of the primitive
wrappers (each storing its element's text; `AppleXMLBool` stores the tag).
`nan` is the `np.nan` missing-value sentinel downstream code feeds back
into `ParsedPrimitiveTypes` (the one Python value with `x != x`). -/
inductive Parsed where
  | dict (entries : List (Option String × Parsed))
  | arr (elems : List Parsed)
  | integer (text : Option String)
  | real (text : Option String)
  | str (text : Option String)
  | bool (tag : String)
  | nan

/-- Python's `str(type(x))` for the values a `Parsed` stands for, as
interpolated into the validator's error messages. -/
def Parsed.pyType : Parsed → String
  | .dict _ => "<class 'dict'>"
  | .arr _ => "<class 'list'>"
  | .integer _ => "<class 'apple_xml_tools.apple_xml_tools.AppleXMLInteger'>"
  | .real _ => "<class 'apple_xml_tools.apple_xml_tools.AppleXMLReal'>"
  | .str _ => "<class 'apple_xml_tools.apple_xml_tools.AppleXMLString'>"
  | .bool _ => "<class 'apple_xml_tools.apple_xml_tools.AppleXMLBool'>"
  | .nan => "<class 'float'>"

/-- A `TypeDescriptor` (`types_mapping`): a Python `dict` from plain string
keys to descriptors, a Python `list` of descriptors, a string, or a value
of any other Python type (`other` carries `str(type(value))` for the error
message). -/
inductive Desc where
  | dict (entries : List (String × Desc))
  | list (elems : List Desc)
  | str (s : String)
  | other (typeName : String)

/-- `parsed_primitive_types[xmlkey]` after an `in` check: lookup in the
parsed dict by `AppleXMLKey` equality, i.e. by key text. -/
def lookupEntry (d : List (Option String × Parsed)) (t : Option String) : Option Parsed :=
  (d.find? (fun e => e.1 == t)).map (fun e => e.2)

mutual
/-- `ParsedPrimitiveTypes.validate`'s recursive `__validate`, dispatching
on the descriptor exactly as the Python `elif` chain does: mapping, then
sequence, then the known tag strings, then unsupported strings
(`ValueError`), then everything else (`TypeError`). -/
def validate : Parsed → Desc → Except PyErr Unit
  | p, .dict m =>
    match p with
    | .dict d => validateDictEntries d m
    | _ => .error (.typeError ("It is \"" ++ p.pyType ++ "\" type not a \"dict\"."))
  | p, .list l =>
    match l with
    | [sub] =>
      match p with
      | .dict d => validateSeq (d.map (fun e => e.2)) sub
      | .arr xs => validateSeq xs sub
      | _ => .error (.typeError
          ("It is \"" ++ p.pyType ++ "\" type not a \"list\", nor a \"dict\"."))
    | _ => .error (.valueError
        ("A list in the mapping arg must have only 1 object, but " ++
          toString l.length ++ "."))
  | p, .str s =>
    if s == "integer" then
      match p with
      | .integer _ => .ok ()
      | _ => .error (.typeError ("It is \"" ++ p.pyType ++ "\" type not an \"integer\"."))
    else if s == "real" then
      match p with
      | .real _ => .ok ()
      | _ => .error (.typeError ("It is \"" ++ p.pyType ++ "\" type not a \"real\"."))
    else if s == "string" then
      match p with
      | .str _ => .ok ()
      | _ => .error (.typeError ("It is \"" ++ p.pyType ++ "\" type not a \"string\"."))
    else if s == "true" || s == "false" then
      match p with
      | .bool _ => .ok ()
      | _ => .error (.typeError ("It is \"" ++ p.pyType ++ "\" type not a \"bool\"."))
    else
      .error (.valueError ("Value \"" ++ s ++ "\" in the mapping is not supported."))
  | _, .other typeName =>
    .error (.typeError ("A part of the types in the mapping is not supported: " ++
      typeName ++ "."))
termination_by _p desc => (sizeOf desc, 0)

/-- The `for key, ... in types_mapping_part.items()` loop of the mapping
case: descriptor keys absent from the data are skipped (`continue`), a
present key's value is validated against the nested descriptor, the first
raised error propagates. -/
def validateDictEntries :
    List (Option String × Parsed) → List (String × Desc) → Except PyErr Unit
  | _, [] => .ok ()
  | d, (k, sub) :: rest =>
    match lookupEntry d (fromstrText k) with
    | none => validateDictEntries d rest
    | some v =>
      match validate v sub with
      | .ok _ => validateDictEntries d rest
      | .error e => .error e
termination_by _d m => (sizeOf m, 1)

/-- The `for parsed_primitive_types_part in parsed_primitive_types_values`
loop of the single-element-sequence case. -/
def validateSeq : List Parsed → Desc → Except PyErr Unit
  | [], _ => .ok ()
  | v :: rest, sub =>
    match validate v sub with
    | .ok _ => validateSeq rest sub
    | .error e => .error e
termination_by l sub => (sizeOf sub, 1 + sizeOf l)
end

/-- Python `sep.join(items)`: the items with `sep` between consecutive
ones. -/
def strJoin (sep : String) : List String → String
  | [] => ""
  | [x] => x
  | x :: y :: rest => x ++ sep ++ strJoin sep (y :: rest)

mutual
/-- `ParsedPrimitiveTypes.get_text`'s recursive `__get_text`:  a NaN-like
value (`x != x`) renders as `""`; a dict joins `str(key) + ": " + rendered
value` segments with the delimiter; a list joins rendered elements; a leaf
returns its `get_text()`.  Both recursive calls omit the delimiter
argument, so nested dicts and lists are always joined with the default
`"|"`.  The f-string formats the `AppleXMLKey` object itself — `keyStr`
models Python's `str()` of that object (`AppleXMLKey` defines no
`__str__`/`__repr__`, so CPython renders the default
`<...AppleXMLKey object at 0x...>` form); it is modelled as a function of
the key's text, which represents every run on trees whose simultaneously
rendered keys have distinct texts.  `combining`/`nfc` are the external
Unicode data used by `AppleXMLString.get_text`. -/
def get_text (combining : Char → Nat) (nfc : String → String)
    (keyStr : Option String → String) : Parsed → String → Option String
  | .nan, _ => some ""
  | .dict entries, delim =>
    some (strJoin delim (getTextDictSegments combining nfc keyStr entries))
  | .arr xs, delim =>
    some (strJoin delim (getTextArrSegments combining nfc keyStr xs))
  | .integer t, _ => t
  | .real t, _ => t
  | .str t, _ => t.map (replace_combining_chars_to_precomposed combining nfc)
  | .bool tag, _ => some tag
termination_by p _d => (sizeOf p, 0)

/-- The generator `f-string` segments of the dict case of `__get_text`:
`str(key) + ": " + str(__get_text(child))`, the child rendered with the
default delimiter. -/
def getTextDictSegments (combining : Char → Nat) (nfc : String → String)
    (keyStr : Option String → String) :
    List (Option String × Parsed) → List String
  | [] => []
  | (k, v) :: rest =>
    (keyStr k ++ ": " ++ fmtOpt (get_text combining nfc keyStr v "|")) ::
      getTextDictSegments combining nfc keyStr rest
termination_by l => (sizeOf l, 1)

/-- The generator segments of the list case of `__get_text`: each child
rendered with the default delimiter and formatted with `str()`. -/
def getTextArrSegments (combining : Char → Nat) (nfc : String → String)
    (keyStr : Option String → String) : List Parsed → List String
  | [] => []
  | v :: rest =>
    fmtOpt (get_text combining nfc keyStr v "|") ::
      getTextArrSegments combining nfc keyStr rest
termination_by l => (sizeOf l, 1)
end

mutual
/-- `AppleXML.parse_into_primitive_types`'s recursive
`__parse_into_primitive_types`: dispatch on the tag; a `dict` is first
scanned by `AppleXMLDict.__init__` (raising its duplicate-key error before
any value is parsed), then its recorded values are parsed in insertion
order; an `array` parses every child; `integer`/`real`/`string` wrap the
text; `true`/`false` wrap the tag; any other tag raises `ValueError`. -/
def parse : Element → Except PyErr Parsed
  | .mk tag text children =>
    if tag == "dict" then
      match dictScan children with
      | .error e => .error e
      | .ok _ =>
        match parseDictItems children none with
        | .ok entries => .ok (.dict entries)
        | .error e => .error e
    else if tag == "array" then
      match parseArrItems children with
      | .ok xs => .ok (.arr xs)
      | .error e => .error e
    else if tag == "integer" then .ok (.integer text)
    else if tag == "real" then .ok (.real text)
    else if tag == "string" then .ok (.str text)
    else if tag == "true" || tag == "false" then .ok (.bool tag)
    else .error (.valueError ("Apple XML tag \"" ++ tag ++ "\" is not supported."))

/-- The dict comprehension over `xmldict.items()`: replays the alternating
scan (whose duplicate check has already passed) to pair each recorded key
with the parse of its value element, in insertion order. -/
def parseDictItems :
    List Element → Option (Option String) → Except PyErr (List (Option String × Parsed))
  | [], _ => .ok []
  | c :: rest, pending =>
    if c.tag == "key" then parseDictItems rest (some c.text)
    else
      match pending with
      | some k =>
        match parse c with
        | .ok v =>
          match parseDictItems rest none with
          | .ok tail => .ok ((k, v) :: tail)
          | .error e => .error e
        | .error e => .error e
      | none => parseDictItems rest none

/-- The list comprehension over an `AppleXMLArray`: parse every child in
order, first error propagates. -/
def parseArrItems : List Element → Except PyErr (List Parsed)
  | [] => .ok []
  | c :: rest =>
    match parse c with
    | .ok v =>
      match parseArrItems rest with
      | .ok vs => .ok (v :: vs)
      | .error e => .error e
    | .error e => .error e
end

/-- The end-to-end spec example:
`<dict><key>A</key><string>x</string><key>B</key><array><integer>1</integer><integer>2</integer></array></dict>`. -/
def exC1 : Element :=
  .mk "dict" none
    [ mkKey (some "A"), .mk "string" (some "x") [],
      mkKey (some "B"),
      .mk "array" none [.mk "integer" (some "1") [], .mk "integer" (some "2") []] ]

/-- The parsed entries of `exC1`. -/
def exC1Entries : List (Option String × Parsed) :=
  [ (some "A", .str (some "x")),
    (some "B", .arr [.integer (some "1"), .integer (some "2")]) ]

/-- The prefix every CPython default `object.__repr__` of an `AppleXMLKey`
instance starts with (`AppleXMLKey` defines neither `__str__` nor
`__repr__`, so `f-string` formatting renders
`<apple_xml_tools.apple_xml_tools.AppleXMLKey object at 0x...>`). -/
def pyKeyReprPre : String := "<apple_xml_tools.apple_xml_tools.AppleXMLKey object at 0x"

lemma dictLoop_cons (s : DictState) (c : Element) (rest : List Element) :
    dictLoop s (c :: rest) =
      match dictStep s c with
      | .ok s' => dictLoop s' rest
      | .error e => .error e := rfl

lemma dictLoop_append (s : DictState) (l₁ l₂ : List Element) :
    dictLoop s (l₁ ++ l₂) =
      match dictLoop s l₁ with
      | .ok s' => dictLoop s' l₂
      | .error e => .error e := by
  induction l₁ generalizing s with
  | nil => simp [dictLoop]
  | cons c rest ih =>
    simp only [List.cons_append, dictLoop]
    cases dictStep s c with
    | ok s' => simpa using ih s'
    | error e => rfl


/-- C10: in `AppleXMLDict` construction, a non-`key` child arriving while no
key is pending (before the first `key`, or after the pending key was
consumed by an earlier value) is silently ignored: the state is unchanged,
no entry records it, no error is raised; in particular such a child at the
head of the scan is dropped from the whole construction. -/
theorem c10_stray_value_ignored :
    (∀ (s : DictState) (c : Element) (rest : List Element),
      c.tag ≠ "key" → s.pending = none →
      dictStep s c = .ok s ∧ dictLoop s (c :: rest) = dictLoop s rest) ∧
    (∀ (c : Element) (rest : List Element), c.tag ≠ "key" →
      dictScan (c :: rest) = dictScan rest) ∧
    dictScan [.mk "string" (some "x") [], mkKey (some "A"), .mk "string" (some "y") []] =
      .ok [(some "A", .mk "string" (some "y") [])] := by
  refine ⟨?_, ?_, rfl⟩
  · intro s c rest htag hp
    have hstep : dictStep s c = .ok s := by
      simp [dictStep, htag, hp]
    exact ⟨hstep, by rw [dictLoop_cons, hstep]⟩
  · intro c rest htag
    have hstep : dictStep { entries := [], pending := none } c =
        .ok { entries := [], pending := none } := by
      simp [dictStep, htag]
    rw [dictScan, dictScan, dictLoop_cons, hstep]


/-- C2 counterexample: a `dict` fragment with two sibling `key` elements of
equal text (`A`, `A`, then a value) constructs successfully — no
`ValueError` — because the first `A` was never recorded (it was dropped
when the second `key` arrived), so the duplicate check at the second `A`
sees an empty working dict. -/
theorem c2_counterexample_consecutive_duplicate_keys_accepted :
    dict_init (.mk "dict" none
      [mkKey (some "A"), mkKey (some "A"), .mk "string" (some "x") []]) =
      .ok [(some "A", .mk "string" (some "x") [])] := rfl

/-- C2 amended: construction fails with the `ValueError` naming the key
text exactly when a `key` element is scanned whose text is already
recorded, i.e. when the earlier equal key was immediately followed by a
value element (which records it); the second conjunct shows that a
non-duplicate `key` immediately followed by a non-`key` child is recorded. -/
theorem c2_duplicate_of_recorded_key_raises :
    (∀ (pre post : List Element) (t : Option String) (st : DictState),
      dictLoop { entries := [], pending := none } pre = .ok st →
      hasKey st.entries t = true →
      dictScan (pre ++ mkKey t :: post) = .error (.valueError (dupKeyMsg t))) ∧
    (∀ (s : DictState) (t : Option String) (v : Element),
      v.tag ≠ "key" → hasKey s.entries t = false →
      dictLoop s [mkKey t, v] = .ok { entries := s.entries ++ [(t, v)], pending := none }) ∧
    dictScan [mkKey (some "A"), .mk "string" (some "x") [], mkKey (some "A")] =
      .error (.valueError (dupKeyMsg (some "A"))) := by
  refine ⟨?_, ?_, rfl⟩
  · intro pre post t st h1 h2
    have hstep : dictStep st (mkKey t) = .error (.valueError (dupKeyMsg t)) := by
      simp [dictStep, mkKey, Element.tag, Element.text, h2]
    rw [dictScan, dictLoop_append, h1]
    simp only [dictLoop_cons, hstep]
  · intro s t v htag h
    have h1 : dictStep s (mkKey t) = .ok { entries := s.entries, pending := some t } := by
      simp [dictStep, mkKey, Element.tag, Element.text, h]
    have h2 : dictStep { entries := s.entries, pending := some t } v =
        .ok { entries := s.entries ++ [(t, v)], pending := none } := by
      simp [dictStep, htag]
    simp only [dictLoop_cons, h1, h2, dictLoop]

/-- C6 counterexample: in the fragment `A, x, B, A` the key `B` is
immediately followed by another `key` element, yet construction raises the
duplicate-key `ValueError` (the second key `A` duplicates the recorded
`A`), refuting that no error is ever raised for a key-key pair. -/
theorem c6_counterexample_key_key_pair_can_raise :
    dict_init (.mk "dict" none
      [mkKey (some "A"), .mk "string" (some "x") [], mkKey (some "B"), mkKey (some "A")]) =
      .error (.valueError (dupKeyMsg (some "A"))) := rfl

/-- C6 amended: a `key` immediately followed by another `key` drops the
first key — no entry records it, the second key becomes the pending key —
and no error arises from the dropped key; but the scan of the second key
still raises the duplicate-key `ValueError` when its text is already
recorded. -/
theorem c6_dropped_key_but_second_key_still_checked :
    (∀ (s : DictState) (t t2 : Option String) (rest : List Element),
      hasKey s.entries t = false → hasKey s.entries t2 = false →
      dictLoop s (mkKey t :: mkKey t2 :: rest) =
        dictLoop { entries := s.entries, pending := some t2 } rest) ∧
    (∀ (s : DictState) (t t2 : Option String) (rest : List Element),
      hasKey s.entries t = false → hasKey s.entries t2 = true →
      dictLoop s (mkKey t :: mkKey t2 :: rest) =
        .error (.valueError (dupKeyMsg t2))) ∧
    dictLoop { entries := [(some "A", .mk "string" (some "x") [])], pending := none }
      [mkKey (some "B"), mkKey (some "A")] =
      .error (.valueError (dupKeyMsg (some "A"))) := by
  refine ⟨?_, ?_, rfl⟩
  · intro s t t2 rest h1 h2
    have hs1 : dictStep s (mkKey t) = .ok { entries := s.entries, pending := some t } := by
      simp [dictStep, mkKey, Element.tag, Element.text, h1]
    have hs2 : dictStep { entries := s.entries, pending := some t } (mkKey t2) =
        .ok { entries := s.entries, pending := some t2 } := by
      simp [dictStep, mkKey, Element.tag, Element.text, h2]
    simp only [dictLoop_cons, hs1, hs2]
  · intro s t t2 rest h1 h2
    have hs1 : dictStep s (mkKey t) = .ok { entries := s.entries, pending := some t } := by
      simp [dictStep, mkKey, Element.tag, Element.text, h1]
    have hs2 : dictStep { entries := s.entries, pending := some t } (mkKey t2) =
        .error (.valueError (dupKeyMsg t2)) := by
      simp [dictStep, mkKey, Element.tag, Element.text, h2]
    simp only [dictLoop_cons, hs1, hs2]


lemma diacriticsLoop_all_plain (C : Char → Nat) (N : String → String) :
    ∀ (l : List Char) (buf : List String), (∀ c ∈ l, C c = 0) →
      diacriticsLoop C N l buf = buf.reverse ++ l.map String.singleton := by
  intro l
  induction l with
  | nil => intro buf _; simp [diacriticsLoop]
  | cons c rest ih =>
    intro buf h
    have hc : C c = 0 := h c (by simp)
    rw [diacriticsLoop.eq_def]
    simp only [hc, bne_self_eq_false, Bool.false_eq_true, if_false]
    rw [ih (String.singleton c :: buf) (fun x hx => h x (by simp [hx]))]
    simp

lemma join_singletons : ∀ l : List Char, String.join (l.map String.singleton) = String.mk l := by
  intro l
  rw [String.join_eq]
  congr 1
  induction l with
  | nil => simp
  | cons c rest ih => simp_all [String.singleton]

/-- C4: the diacritics normalizer scans left to right with an output
buffer; a combining character (non-zero canonical class) seen with a
non-empty buffer pops the last buffered entry and replaces both with the
NFC normalization of their concatenation, any other character — including
a combining character seen with an empty buffer — is appended unchanged.
Consequently a base letter immediately followed by a combining mark (in
any left context `buf`) contributes the NFC composition of the pair, so
`e` + COMBINING ACUTE yields precomposed U+00E9; and a combining mark at
the start of the input is passed through unchanged. -/
theorem c4_pairwise_diacritics_normalizer :
    (∀ (C : Char → Nat) (N : String → String),
      (∀ (m : Char) (rest : List Char) (b0 : String) (buf : List String),
        C m ≠ 0 →
        diacriticsLoop C N (m :: rest) (b0 :: buf) =
          diacriticsLoop C N rest (N (b0.push m) :: buf)) ∧
      (∀ (c : Char) (rest : List Char) (buf : List String),
        C c = 0 ∨ buf = [] →
        diacriticsLoop C N (c :: rest) buf =
          diacriticsLoop C N rest (String.singleton c :: buf)) ∧
      (∀ (b m : Char) (rest : List Char) (buf : List String),
        C b = 0 → C m ≠ 0 →
        diacriticsLoop C N (b :: m :: rest) buf =
          diacriticsLoop C N rest (N ((String.singleton b).push m) :: buf)) ∧
      (∀ (m : Char) (rest : List Char),
        C m ≠ 0 → (∀ c ∈ rest, C c = 0) →
        replace_combining_chars_to_precomposed C N (String.mk (m :: rest)) =
          String.mk (m :: rest))) ∧
    replace_combining_chars_to_precomposed uniCombining uniNFC "e\u0301" = "\u00E9" ∧
    replace_combining_chars_to_precomposed uniCombining uniNFC "\u0301" = "\u0301" := by
  refine ⟨?_, rfl, rfl⟩
  intro C N
  have hstepc : ∀ (m : Char) (rest : List Char) (b0 : String) (buf : List String),
      C m ≠ 0 →
      diacriticsLoop C N (m :: rest) (b0 :: buf) =
        diacriticsLoop C N rest (N (b0.push m) :: buf) := by
    intro m rest b0 buf hm
    rw [diacriticsLoop.eq_def]
    simp [bne, hm]
  have hstepp : ∀ (c : Char) (rest : List Char) (buf : List String),
      C c = 0 ∨ buf = [] →
      diacriticsLoop C N (c :: rest) buf =
        diacriticsLoop C N rest (String.singleton c :: buf) := by
    intro c rest buf h
    rcases h with h | h
    · rw [diacriticsLoop.eq_def]
      simp [h]
    · subst h
      rw [diacriticsLoop.eq_def]
      by_cases hc : C c = 0
      · simp [hc]
      · simp [bne, hc]
  refine ⟨hstepc, hstepp, ?_, ?_⟩
  · intro b m rest buf hb hm
    rw [hstepp b (m :: rest) buf (Or.inl hb), hstepc m rest _ _ hm]
  · intro m rest hm hrest
    rw [replace_combining_chars_to_precomposed]
    show String.join (diacriticsLoop C N (m :: rest) []) = String.mk (m :: rest)
    rw [hstepp m rest [] (Or.inr rfl),
      diacriticsLoop_all_plain C N rest [String.singleton m] hrest]
    simp only [List.reverse_singleton, List.singleton_append]
    rw [show String.singleton m :: rest.map String.singleton =
      (m :: rest).map String.singleton from rfl, join_singletons]


/-- C7: `AppleXMLString` equality (and its hash) is over the raw stored
text — two wrappers are equal exactly when their raw texts are equal —
while `get_text()` normalizes on every read; the decomposed text
`e` + U+0301 and the precomposed U+00E9 read back as the same normalized
text although the wrappers are unequal. -/
theorem c7_raw_equality_normalized_reads :
    (∀ a b : AppleXMLString, strEq a b = true ↔ a.text = b.text) ∧
    (∀ a b : AppleXMLString, strEq a b = true → strHash a = strHash b) ∧
    AppleXMLString.get_text uniCombining uniNFC { text := some "e\u0301" } =
      AppleXMLString.get_text uniCombining uniNFC { text := some "\u00E9" } ∧
    AppleXMLString.get_text uniCombining uniNFC { text := some "e\u0301" } =
      some "\u00E9" ∧
    strEq { text := some "e\u0301" } { text := some "\u00E9" } = false := by
  refine ⟨?_, ?_, rfl, rfl, rfl⟩
  · intro a b
    simp [strEq]
  · intro a b h
    simp [strEq] at h
    simp [strHash, h]

/-- C8: `AppleXMLKey.fromstr(s)` builds its key by parsing the very
fragment `<key>s</key>`, so (for markup-free `s`) it carries the same text
as a key parsed from that fragment, and the two are equal and hash alike
under the text-based equality/hash contract; concretely
`fromstr("Foo")` equals the key parsed from `<key>Foo</key>`. -/
theorem c8_fromstr_equals_parsed_key :
    (∀ a b : AppleXMLKey, keyEq a b = true ↔ a.text = b.text) ∧
    (∀ a b : AppleXMLKey, a.text = b.text → keyHash a = keyHash b) ∧
    (∀ (s : String) (k k2 : AppleXMLKey), plainXmlText s →
      fromstr s = .ok k → key_init (keyFragmentParse s) = .ok k2 →
      keyEq k k2 = true ∧ keyHash k = keyHash k2) ∧
    fromstr "Foo" = .ok { text := some "Foo" } ∧
    key_init (.mk "key" (some "Foo") []) = .ok { text := some "Foo" } ∧
    keyEq { text := some "Foo" } { text := some "Foo" } = true ∧
    keyHash ({ text := some "Foo" } : AppleXMLKey) =
      keyHash ({ text := some "Foo" } : AppleXMLKey) := by
  refine ⟨?_, ?_, ?_, rfl, rfl, rfl, rfl⟩
  · intro a b
    simp [keyEq]
  · intro a b h
    simp [keyHash, h]
  · intro s k k2 _ h1 h2
    rw [fromstr] at h1
    rw [h1] at h2
    cases h2
    simp [keyEq]


lemma validateDictEntries_ok_iff (d : List (Option String × Parsed)) :
    ∀ m : List (String × Desc), validateDictEntries d m = .ok () ↔
      ∀ k sub, (k, sub) ∈ m → ∀ v, lookupEntry d (fromstrText k) = some v →
        validate v sub = .ok () := by
  intro m
  induction m with
  | nil => simp [validateDictEntries]
  | cons head rest ih =>
    obtain ⟨k, sub⟩ := head
    cases h : lookupEntry d (fromstrText k) with
    | none =>
      simp only [validateDictEntries, h]
      constructor
      · intro hrec k2 sub2 hmem v hv
        rcases List.mem_cons.mp hmem with heq | hmem2
        · cases heq
          rw [h] at hv
          cases hv
        · exact (ih.mp hrec) k2 sub2 hmem2 v hv
      · intro hall
        exact ih.mpr (fun k2 sub2 hm v hv => hall k2 sub2 (List.mem_cons_of_mem _ hm) v hv)
    | some v =>
      simp only [validateDictEntries, h]
      cases hv : validate v sub with
      | ok u =>
        cases u
        constructor
        · intro hrec k2 sub2 hmem v2 hv2
          rcases List.mem_cons.mp hmem with heq | hmem2
          · cases heq
            rw [h] at hv2
            cases hv2
            exact hv
          · exact (ih.mp hrec) k2 sub2 hmem2 v2 hv2
        · intro hall
          exact ih.mpr (fun k2 sub2 hm v2 hv2 => hall k2 sub2 (List.mem_cons_of_mem _ hm) v2 hv2)
      | error e =>
        constructor
        · intro hcontra
          cases hcontra
        · intro hall
          exact absurd (hall k sub (List.mem_cons_self _ _) v h) (by simp [hv])

/-- C5: on a parsed dict and a mapping descriptor, `validate` succeeds
exactly when every descriptor entry whose key is found in the data
validates the found value — descriptor keys absent from the data are
skipped, data keys absent from the descriptor are never examined; the
concrete spec example succeeds with an extra untracked data key and fails
with a `TypeError` when the descriptor expects an integer. -/
theorem c5_validate_checks_only_shared_keys :
    (∀ (d : List (Option String × Parsed)) (m : List (String × Desc)),
      validate (.dict d) (.dict m) = .ok () ↔
        ∀ k sub, (k, sub) ∈ m → ∀ v, lookupEntry d (fromstrText k) = some v →
          validate v sub = .ok ()) ∧
    validate (.dict [(some "Name", .str (some "Alice")), (some "Extra", .integer (some "1"))])
      (.dict [("Name", .str "string")]) = .ok () ∧
    validate (.dict [(some "Name", .str (some "Alice")), (some "Extra", .integer (some "1"))])
      (.dict [("Name", .str "integer")]) =
      .error (.typeError
        "It is \"<class 'apple_xml_tools.apple_xml_tools.AppleXMLString'>\" type not an \"integer\".") := by
  have hlook : lookupEntry
      [(some "Name", Parsed.str (some "Alice")), (some "Extra", Parsed.integer (some "1"))]
      (fromstrText "Name") = some (Parsed.str (some "Alice")) := rfl
  refine ⟨?_, ?_, ?_⟩
  · intro d m
    have hv : validate (.dict d) (.dict m) = validateDictEntries d m := by
      simp [validate]
    rw [hv]
    exact validateDictEntries_ok_iff d m
  · simp [validate, validateDictEntries, hlook]
  · simp [validate, validateDictEntries, hlook, Parsed.pyType]

/-- C3 counterexample: a descriptor that is neither a mapping nor a
sequence nor a string — here a Python `int` — fails with a `TypeError`,
not a `ValueError`. -/
theorem c3_counterexample_non_string_descriptor :
    validate (.integer (some "1")) (.other "<class 'int'>") =
      .error (.typeError "A part of the types in the mapping is not supported: <class 'int'>.") ∧
    (∀ msg, validate (.integer (some "1")) (.other "<class 'int'>") ≠
      .error (.valueError msg)) := by
  have h1 : validate (.integer (some "1")) (.other "<class 'int'>") =
      .error (.typeError "A part of the types in the mapping is not supported: <class 'int'>.") := by
    simp [validate]
  refine ⟨h1, ?_⟩
  intro msg hc
  rw [h1] at hc
  simp at hc

/-- C3 amended: wrong-length sequence descriptors and unsupported string
descriptors fail with `ValueError`; a descriptor of any other type — not a
mapping, not a sequence, not a string — fails with `TypeError`. -/
theorem c3_amended_unsupported_descriptor_error_kinds :
    (∀ (p : Parsed) (l : List Desc), l.length ≠ 1 →
      validate p (.list l) = .error (.valueError
        ("A list in the mapping arg must have only 1 object, but " ++
          toString l.length ++ "."))) ∧
    (∀ (p : Parsed) (s : String),
      s ≠ "integer" → s ≠ "real" → s ≠ "string" → s ≠ "true" → s ≠ "false" →
      validate p (.str s) = .error (.valueError
        ("Value \"" ++ s ++ "\" in the mapping is not supported."))) ∧
    (∀ (p : Parsed) (tn : String),
      validate p (.other tn) = .error (.typeError
        ("A part of the types in the mapping is not supported: " ++ tn ++ "."))) ∧
    validate (.integer (some "1")) (.list []) =
      .error (.valueError "A list in the mapping arg must have only 1 object, but 0.") ∧
    validate (.integer (some "1")) (.str "data") =
      .error (.valueError "Value \"data\" in the mapping is not supported.") := by
  refine ⟨?_, ?_, ?_, ?_, ?_⟩
  · intro p l hl
    match l with
    | [] => simp [validate]
    | [x] => exact absurd rfl hl
    | x :: y :: rest => simp [validate]
  · intro p s h1 h2 h3 h4 h5
    rw [validate.eq_def]
    simp [h1, h2, h3, h4, h5]
  · intro p tn
    simp [validate]
  · rw [validate.eq_def]
    simp
    rfl
  · rw [validate.eq_def]
    simp


lemma getTextDictSegments_eq (C : Char → Nat) (N : String → String)
    (K : Option String → String) :
    ∀ l : List (Option String × Parsed), getTextDictSegments C N K l =
      l.map (fun e => K e.1 ++ ": " ++ fmtOpt (get_text C N K e.2 "|")) := by
  intro l
  induction l with
  | nil => simp [getTextDictSegments]
  | cons e rest ih =>
    obtain ⟨k, v⟩ := e
    simp [getTextDictSegments, ih]

lemma getTextArrSegments_eq (C : Char → Nat) (N : String → String)
    (K : Option String → String) :
    ∀ l : List Parsed, getTextArrSegments C N K l =
      l.map (fun v => fmtOpt (get_text C N K v "|")) := by
  intro l
  induction l with
  | nil => simp [getTextArrSegments]
  | cons v rest ih => simp [getTextArrSegments, ih]

lemma replace_single (C : Char → Nat) (N : String → String) (c : Char) :
    replace_combining_chars_to_precomposed C N (String.singleton c) = String.singleton c := by
  rw [replace_combining_chars_to_precomposed]
  have hdata : (String.singleton c).data = [c] := rfl
  rw [hdata]
  have hloop : diacriticsLoop C N [c] [] = [String.singleton c] := by
    rw [diacriticsLoop.eq_def]
    by_cases hc : (C c != 0) = true
    · simp [hc, diacriticsLoop]
    · simp [hc, diacriticsLoop]
  rw [hloop]
  exact join_singletons [c]

/-- C9: the delimiter argument of `get_text` is applied only at the
outermost level: both recursive calls pass no delimiter, so nested dicts
and arrays are joined with the fixed default `"|"` whatever delimiter the
caller supplied. -/
theorem c9_nested_structures_use_default_delimiter :
    (∀ (C : Char → Nat) (N : String → String) (K : Option String → String)
      (entries : List (Option String × Parsed)) (delim : String),
      get_text C N K (.dict entries) delim =
        some (strJoin delim (entries.map (fun e =>
          K e.1 ++ ": " ++ fmtOpt (get_text C N K e.2 "|"))))) ∧
    (∀ (C : Char → Nat) (N : String → String) (K : Option String → String)
      (xs : List Parsed) (delim : String),
      get_text C N K (.arr xs) delim =
        some (strJoin delim (xs.map (fun v => fmtOpt (get_text C N K v "|"))))) ∧
    (∀ (C : Char → Nat) (N : String → String) (K : Option String → String),
      get_text C N K
        (.arr [.arr [.integer (some "1"), .integer (some "2")], .integer (some "3")]) ";" =
        some "1|2;3") ∧
    (∀ (C : Char → Nat) (N : String → String) (K : Option String → String),
      get_text C N K
        (.dict [(some "A", .arr [.integer (some "1"), .integer (some "2")])]) ";" =
        some (K (some "A") ++ ": " ++ "1|2")) := by
  refine ⟨?_, ?_, ?_, ?_⟩
  · intro C N K entries delim
    simp [get_text, getTextDictSegments_eq]
  · intro C N K xs delim
    simp [get_text, getTextArrSegments_eq]
  · intro C N K
    simp [get_text, getTextArrSegments, fmtOpt, strJoin]
  · intro C N K
    simp [get_text, getTextDictSegments, getTextArrSegments, fmtOpt, strJoin]



/-- C1 (code bug): the spec example parses to a dict of size 2, but
flattening it with delimiter `"|"` cannot yield `"A: x|B: 1|2"`: the
f-string in `get_text` formats the `AppleXMLKey` object, whose default
`str()` always starts with `<apple_xml_tools...AppleXMLKey object at 0x`,
so the output starts with `<`, not with the key text.  The last conjunct
shows the spec behaviour would result if the key text were rendered
instead. -/
theorem c1_flatten_renders_key_object_repr :
    parse exC1 = .ok (.dict exC1Entries) ∧
    exC1Entries.length = 2 ∧
    (∀ (C : Char → Nat) (N : String → String) (keyStr : Option String → String),
      (∀ t, ∃ r, keyStr t = pyKeyReprPre ++ r) →
      get_text C N keyStr (.dict exC1Entries) "|" ≠ some "A: x|B: 1|2") ∧
    (∀ (C : Char → Nat) (N : String → String),
      get_text C N fmtOpt (.dict exC1Entries) "|" = some "A: x|B: 1|2") := by
  have hx : ∀ (C : Char → Nat) (N : String → String),
      replace_combining_chars_to_precomposed C N "x" = "x" := fun C N =>
    replace_single C N (Char.ofNat 120)
  have hcompute : ∀ (C : Char → Nat) (N : String → String) (K : Option String → String),
      get_text C N K (.dict exC1Entries) "|" =
        some (K (some "A") ++ ": " ++ "x" ++ "|" ++ (K (some "B") ++ ": " ++ "1|2")) := by
    intro C N K
    simp [exC1Entries, get_text, getTextDictSegments, getTextArrSegments, strJoin, fmtOpt, hx]
  refine ⟨?_, rfl, ?_, ?_⟩
  · simp [parse, exC1, exC1Entries, parseDictItems, parseArrItems, dictScan, dictLoop, dictStep,
      mkKey, hasKey, Element.tag, Element.text, Element.children]
  · intro C N K hK h
    obtain ⟨r, hr⟩ := hK (some "A")
    rw [hcompute C N K, hr] at h
    have hs := Option.some.inj h
    have hd := congrArg String.data hs
    simp only [String.data_append, List.append_assoc] at hd
    have hh := congrArg List.head? hd
    rw [List.head?_append_of_ne_nil] at hh
    · have h1 : pyKeyReprPre.data.head? = some (Char.ofNat 60) := rfl
      have h2 : ("A: x|B: 1|2").data.head? = some (Char.ofNat 65) := rfl
      rw [h1, h2] at hh
      exact absurd (Option.some.inj hh) (by decide)
    · intro h0
      have hcontra := congrArg List.head? h0
      rw [show pyKeyReprPre.data.head? = some (Char.ofNat 60) from rfl] at hcontra
      simp at hcontra
  · intro C N
    rw [hcompute C N fmtOpt]
    rfl
